import Mathlib

/-!
Shallow embedding of `iterm2_images/payloads.py`: the iTerm2 "File" escape
sequence encoder (`FileEsc`, `ImageEsc`), the dimension/unit system
(`ImageLenUnit`, `ImageDim`), the NumPy array ingestion path
(`ImageEsc.from_numpy` / `ImageEsc.from_pil`), and the scaling operators.

Conventions of the embedding:
* Byte buffers (`bytes` values) are `List Nat`, each entry one byte.
* Display names are modelled by their UTF-8 byte sequences (`List Nat`):
  the source base64-encodes `name.encode()` and never uses the text form
  otherwise, so the `str → bytes` step is absorbed into the model.
* Python `float` scalars are modelled by `ℚ` with exact arithmetic; the
  claims under study never depend on binary floating-point rounding.
* Exceptions are `Except PyError`; methods that may mutate `self` are
  state transformers returning `(result, state of self after the call)`.
* The escape-sequence text is `List Char` (it is pure ASCII: base64
  output, decimal numbers, and fixed keys).
-/

/-- Exceptions raised by the embedded code.  The source raises `ValueError`
with a message at every validation site; `ZeroDivisionError` is raised by
Python's division operator itself when the divisor is zero. -/
inductive PyError where
  | valueError (msg : String)
  | zeroDivisionError
deriving DecidableEq, Repr

/-- Message of the rank check in `ImageEsc.from_numpy`. -/
def rankMsg : String := "Array must be 2 or 3 dimensional"

/-- Message of the zero-dimension check in `ImageEsc.from_numpy`. -/
def zeroMsg : String := "All array dimensions must be nonzero"

/-- Message of the channel-count check in `ImageEsc.from_numpy`. -/
def chanMsg : String := "Number of channels (last dimension) must be 1-4"

/-- Message of the dtype check in `ImageEsc.from_numpy`. -/
def dtypeMsg : String :=
  "Array dtype must be uint8 (range 0-255) or float[16, 32, 64, 128] (range 0-1)"

/-- Message of the negative-factor check in `ImageEsc.__imul__`. -/
def negMsg : String := "Cannot multiply or divide by a negative number"

/-- ShapeError kind of the spec's error taxonomy: the three shape-validation
failures of `from_numpy`. -/
def PyError.isShapeError : PyError → Bool
  | .valueError m => m == rankMsg || m == zeroMsg || m == chanMsg
  | _ => false

/-- DTypeError kind of the spec's error taxonomy. -/
def PyError.isDTypeError : PyError → Bool
  | .valueError m => m == dtypeMsg
  | _ => false

/-- DomainError kind of the spec's error taxonomy: negative scale factor. -/
def PyError.isDomainError : PyError → Bool
  | .valueError m => m == negMsg
  | _ => false

/-- Units of measure of inline image sizes (`ImageLenUnit` in the source),
with their wire suffixes as in the Python enum values. -/
inductive ImageLenUnit where
  | cells
  | pixels
  | percent
  | auto
deriving DecidableEq, Repr

/-- Wire text of each unit (the Python enum's `value` field:
`'' | 'px' | '%' | 'auto'`). -/
def ImageLenUnit.suffix : ImageLenUnit → List Char
  | .cells => []
  | .pixels => ['p', 'x']
  | .percent => ['%']
  | .auto => ['a', 'u', 't', 'o']

/-- Quantity with a unit of measure (`ImageDim` in the source); defaults:
value `0`, unit `AUTO`. -/
structure ImageDim where
  value : ℚ
  unit : ImageLenUnit
deriving DecidableEq, Repr

/-- Decimal digit character: `digitChar k` is the character for digit `k`. -/
def digitChar (k : Nat) : Char := Char.ofNat (48 + k)

/-- Decimal digits of `n`, most significant first, with structural fuel
(any fuel of at least the digit count gives the full expansion). -/
def natDecimalAux : Nat → Nat → List Char
  | 0, _ => []
  | fuel + 1, n =>
    if n < 10 then [digitChar n]
    else natDecimalAux fuel (n / 10) ++ [digitChar (n % 10)]

/-- Decimal representation of a natural number (Python `str` of a
nonnegative `int`); `n + 1` units of fuel always suffice. -/
def natDecimal (n : Nat) : List Char := natDecimalAux (n + 1) n

/-- Fractional digits of a rational in `[0, 1)`, most significant first,
stopping at an exact zero remainder or after `fuel` digits. -/
def fracDigits : Nat → ℚ → List Char
  | 0, _ => []
  | fuel + 1, q =>
    if q = 0 then []
    else
      let d := (⌊q * 10⌋ : ℤ).toNat
      digitChar d :: fracDigits fuel (q * 10 - d)

/-- Decimal text of a rational, modelling Python's `str` of a `float` on
the values this code produces (finite dyadic decimals, where the shortest
round-trip representation is the exact expansion, always with at least one
fractional digit: `2 → "2.0"`, `1/2 → "0.5"`). -/
def decimalChars (q : ℚ) : List Char :=
  let sgn : List Char := if q < 0 then ['-'] else []
  let a := |q|
  let ip := (⌊a⌋ : ℤ).toNat
  let frac := fracDigits 17 (a - ip)
  sgn ++ natDecimal ip ++ '.' :: (if frac = [] then ['0'] else frac)

/-- Wire text of a dimension (`ImageDim.__str__`): `auto` renders as the
bare unit word, the quantity ignored; otherwise value text followed by the
unit suffix. -/
def ImageDim.str (d : ImageDim) : List Char :=
  if d.unit = .auto then ImageLenUnit.auto.suffix
  else decimalChars d.value ++ d.unit.suffix

/-- Payload of a file transfer (`FileEsc` dataclass): raw bytes plus an
optional display name (modelled as its UTF-8 bytes). -/
structure FileEsc where
  data : List Nat
  name : Option (List Nat)
deriving DecidableEq, Repr

/-- Inline-image payload (`ImageEsc` dataclass, extending `FileEsc`) with
declarative width/height and the aspect-ratio flag
(`preserve_aspect_ratio` in the source, default `True`). -/
structure ImageEsc extends FileEsc where
  width : ImageDim
  height : ImageDim
  preserveAspect : Bool
deriving DecidableEq, Repr

/-- Default-constructed `ImageEsc()`: empty buffer, no name, `ImageDim()`
dimensions (`AUTO`), aspect ratio preserved. -/
def defaultImageEsc : ImageEsc :=
  { data := [], name := none,
    width := ⟨0, .auto⟩, height := ⟨0, .auto⟩, preserveAspect := true }

/-- Deep copy (`ImageEsc.copy`, i.e. `copy.deepcopy(self)`): produces an
equal object sharing no mutable state with the original; in the value
semantics of the embedding the copied state equals the original state. -/
def ImageEsc.copy (e : ImageEsc) : ImageEsc := e

/-- In-place scaling `ImageEsc.__imul__`, run as a state transformer on
`self`.  The statements run in source order: the negativity check raises
before either dimension is touched, so on the error path the returned
post-state of `self` is the unmodified pre-state; otherwise
`self.width.value` and then `self.height.value` are multiplied by the
factor and `self` is returned. -/
def ImageEsc.imulRun (e : ImageEsc) (k : ℚ) :
    Except PyError ImageEsc × ImageEsc :=
  if k < 0 then (.error (.valueError negMsg), e)
  else
    let e2 : ImageEsc :=
      { e with width := ⟨e.width.value * k, e.width.unit⟩,
               height := ⟨e.height.value * k, e.height.unit⟩ }
    (.ok e2, e2)

/-- Reciprocal `1 / other` as Python evaluates it: division by zero raises
`ZeroDivisionError` (for `int` and `float` divisors alike); otherwise the
exact quotient. -/
def pyRecip (k : ℚ) : Except PyError ℚ :=
  if k = 0 then .error .zeroDivisionError else .ok (1 / k)

/-- In-place division `ImageEsc.__itruediv__`: `self.__imul__(1 / other)`;
the reciprocal is computed first, so a zero divisor raises before
`__imul__` runs and `self` is unchanged. -/
def ImageEsc.itruedivRun (e : ImageEsc) (k : ℚ) :
    Except PyError ImageEsc × ImageEsc :=
  match pyRecip k with
  | .error err => (.error err, e)
  | .ok r => e.imulRun r

/-- Copying multiplication `ImageEsc.__mul__`:
`self.copy().__imul__(other)` — the in-place operator runs on a deep copy,
so `self`'s state after the call is its state before it. -/
def ImageEsc.mulRun (e : ImageEsc) (k : ℚ) :
    Except PyError ImageEsc × ImageEsc :=
  ((e.copy.imulRun k).1, e)

/-- Reflected multiplication `ImageEsc.__rmul__`: `self * other`. -/
def ImageEsc.rmulRun (e : ImageEsc) (k : ℚ) :
    Except PyError ImageEsc × ImageEsc :=
  e.mulRun k

/-- Copying division `ImageEsc.__truediv__`:
`self.copy().__itruediv__(other)`. -/
def ImageEsc.truedivRun (e : ImageEsc) (k : ℚ) :
    Except PyError ImageEsc × ImageEsc :=
  ((e.copy.itruedivRun k).1, e)

/-- Alphabet of standard base64 (RFC 4648, as used by Python's
`base64.b64encode`). -/
def b64Alphabet : List Char :=
  ['A', 'B', 'C', 'D', 'E', 'F', 'G', 'H', 'I', 'J', 'K', 'L', 'M',
   'N', 'O', 'P', 'Q', 'R', 'S', 'T', 'U', 'V', 'W', 'X', 'Y', 'Z',
   'a', 'b', 'c', 'd', 'e', 'f', 'g', 'h', 'i', 'j', 'k', 'l', 'm',
   'n', 'o', 'p', 'q', 'r', 's', 't', 'u', 'v', 'w', 'x', 'y', 'z',
   '0', '1', '2', '3', '4', '5', '6', '7', '8', '9', '+', '/']

/-- Character of a 6-bit group (index into the base64 alphabet). -/
def b64chr (v : Nat) : Char := b64Alphabet.getD v '='

/-- Value of a base64 alphabet character; `none` for anything else
(including the padding character). -/
def b64val (c : Char) : Option Nat := List.findIdx? (· = c) b64Alphabet

/-- Standard padded base64 encoding of a byte sequence (Python
`base64.b64encode`): three bytes become four alphabet characters, a
two-byte remainder three characters and `=`, a one-byte remainder two
characters and `==`. -/
def b64encode : List Nat → List Char
  | a :: b :: c :: rest =>
    b64chr (a / 4) :: b64chr (a % 4 * 16 + b / 16) ::
    b64chr (b % 16 * 4 + c / 64) :: b64chr (c % 64) :: b64encode rest
  | [a, b] => [b64chr (a / 4), b64chr (a % 4 * 16 + b / 16),
               b64chr (b % 16 * 4), '=']
  | [a] => [b64chr (a / 4), b64chr (a % 4 * 16), '=', '=']
  | [] => []

/-- Modelled from the spec: `decode_wire` reverses the base64 step.  This
is standard padded base64 decoding: groups of four characters, with the
final group optionally carrying one or two `=` padding characters. -/
def b64decode : List Char → Option (List Nat)
  | [] => some []
  | c1 :: c2 :: c3 :: c4 :: rest =>
    match b64val c1, b64val c2 with
    | some v1, some v2 =>
      if c3 = '=' then
        if c4 = '=' then
          if rest = [] then some [v1 * 4 + v2 / 16] else none
        else none
      else
        match b64val c3 with
        | some v3 =>
          if c4 = '=' then
            if rest = [] then
              some [v1 * 4 + v2 / 16, v2 % 16 * 16 + v3 / 4]
            else none
          else
            match b64val c4, b64decode rest with
            | some v4, some tail =>
              some ((v1 * 4 + v2 / 16) :: (v2 % 16 * 16 + v3 / 4) ::
                    (v3 % 4 * 64 + v4) :: tail)
            | _, _ => none
        | none => none
    | _, _ => none
  | _ => none

/-- Operations a `write` call performs on the resolved binary stream. -/
inductive StreamOp where
  | write (s : List Char)
  | flush
deriving DecidableEq, Repr

/-- Characters emitted to the stream by a sequence of operations. -/
def emitted : List StreamOp → List Char
  | [] => []
  | .write s :: rest => s ++ emitted rest
  | .flush :: rest => emitted rest

/-- Fixed start marker `b'\x1b]1337;File='` of the escape sequence. -/
def headerChars : List Char := ("\x1b]1337;File=" : String).data

/-- BEL character, the first byte of the terminator `b'\a\n'`. -/
def belChar : Char := '\x07'

/-- Key `'name'` of the name argument. -/
def nameKey : List Char := ("name" : String).data

/-- Key `'size'` of the size argument. -/
def sizeKey : List Char := ("size" : String).data

/-- Python `'{}={}'.format(k, v)` and `';'.join(...)` over the argument
mapping's insertion order. -/
def joinArgs : List (List Char) → List Char
  | [] => []
  | [x] => x
  | x :: xs => x ++ ';' :: joinArgs xs

/-- Formatted argument string of `FileEsc._write_args`. -/
def fmtArgs (args : List (List Char × List Char)) : List Char :=
  joinArgs (args.map fun kv => kv.1 ++ '=' :: kv.2)

/-- Stream operations of `FileEsc._write_args`: one write of the header,
argument string and `:` separator, one write of the base64-encoded data,
one write of the terminator `b'\a\n'`, then a flush. -/
def writeArgsOps (data : List Nat)
    (args : List (List Char × List Char)) : List StreamOp :=
  [.write (headerChars ++ fmtArgs args ++ [':']),
   .write (b64encode data),
   .write [belChar, '\n'],
   .flush]

/-- Argument mapping built by `FileEsc.write`: `name` (base64 of the name
bytes) only when the name is set, then `size` (decimal byte length of the
raw data). -/
def fileArgs (e : FileEsc) : List (List Char × List Char) :=
  (match e.name with
   | some nm => [(nameKey, b64encode nm)]
   | none => []) ++ [(sizeKey, natDecimal e.data.length)]

/-- Stream operations of `FileEsc.write`. -/
def FileEsc.writeOps (e : FileEsc) : List StreamOp :=
  writeArgsOps e.data (fileArgs e)

/-- Argument mapping built by `ImageEsc.write`: `name` only when set, then
`size`, `width`, `height`, `preserveAspectRatio` (`int` of the flag) and
the literal `inline=1`. -/
def imageArgs (e : ImageEsc) : List (List Char × List Char) :=
  (match e.name with
   | some nm => [(nameKey, b64encode nm)]
   | none => []) ++
  [(sizeKey, natDecimal e.data.length),
   (("width" : String).data, e.width.str),
   (("height" : String).data, e.height.str),
   (("preserveAspectRatio" : String).data,
    if e.preserveAspect then ['1'] else ['0']),
   (("inline" : String).data, ['1'])]

/-- Stream operations of `ImageEsc.write`. -/
def ImageEsc.writeOps (e : ImageEsc) : List StreamOp :=
  writeArgsOps e.data (imageArgs e)

/-- Wire form claimed by the spec for a plain file transfer, written out
directly from the spec text: start marker, then `name=<base64(name)>;`
only when the name is set, then `size=<decimal length>`, the `:`
separator, the base64 payload, and the `BEL`-newline terminator. -/
def specFileWire (d : List Nat) (n : Option (List Nat)) : List Char :=
  ("\x1b]1337;File=" : String).data ++
  (match n with
   | some nm => ("name=" : String).data ++ b64encode nm ++
                (";size=" : String).data ++ natDecimal d.length
   | none => ("size=" : String).data ++ natDecimal d.length) ++
  ':' :: b64encode d ++ ("\x07\n" : String).data

/-- Wire form claimed by the spec for an inline image: the file-transfer
framing with arguments `name?`, `size`, `width`, `height`,
`preserveAspectRatio` rendered `0` or `1`, and the literal `inline=1`. -/
def specImageWire (e : ImageEsc) : List Char :=
  ("\x1b]1337;File=" : String).data ++
  (match e.name with
   | some nm => ("name=" : String).data ++ b64encode nm ++ [';']
   | none => []) ++
  ("size=" : String).data ++ natDecimal e.data.length ++
  (";width=" : String).data ++ e.width.str ++
  (";height=" : String).data ++ e.height.str ++
  (";preserveAspectRatio=" : String).data ++
  (if e.preserveAspect then ['1'] else ['0']) ++
  (";inline=1" : String).data ++
  ':' :: b64encode e.data ++ ("\x07\n" : String).data

/-- Element kind of a NumPy array as far as `from_numpy` inspects it: the
source only tests `np.issubdtype(dtype, np.uint8)` and
`np.issubdtype(dtype, np.floating)`, so the float widths 16/32/64/128
collapse into one `floating` kind and everything else into `other`. -/
inductive NpDType where
  | uint8
  | floating
  | other
deriving DecidableEq, Repr

/-- NumPy array model: a shape, an element kind and the elements in flat
row-major order (`ℚ` holds both uint8 values and exact float values). -/
structure NpArray where
  shape : List Nat
  dtype : NpDType
  elems : List ℚ
deriving DecidableEq, Repr

/-- Rank of the array (`arr.ndim`). -/
def NpArray.ndim (a : NpArray) : Nat := a.shape.length

/-- Channel squeeze `arr[:, :, 0]` for a rank-3 array whose last dimension
is 1: drops the channel axis; every pixel has exactly one element, so the
flat element list is unchanged. -/
def NpArray.squeezeLast (a : NpArray) : NpArray :=
  { a with shape := a.shape.dropLast }

/-- Clamp `np.clip(v, 0, 1)` of a scalar. -/
def clip01 (v : ℚ) : ℚ := max 0 (min 1 v)

/-- Rounding `np.round` of a scalar: round half to even (IEEE 754 /
NumPy banker's rounding), expressed on exact rationals. -/
def np_round (q : ℚ) : ℤ :=
  if q - ⌊q⌋ < 1 / 2 then ⌊q⌋
  else if 1 / 2 < q - ⌊q⌋ then ⌊q⌋ + 1
  else if ⌊q⌋ % 2 = 0 then ⌊q⌋ else ⌊q⌋ + 1

/-- Conversion `np.uint8(np.round(np.clip(v, 0, 1) * 255))` of a single
float element; the rounded value lies in `0..255`, so the `uint8` cast
does not wrap. -/
def floatToByte (v : ℚ) : ℚ := ((np_round (clip01 v * 255) : ℤ) : ℚ)

/-- Float-conversion step of `from_numpy`: a floating array is mapped
elementwise through `floatToByte` and becomes a `uint8` array; any other
array passes through unchanged. -/
def floatConvert (a : NpArray) : NpArray :=
  if a.dtype = .floating then
    { a with elems := a.elems.map floatToByte, dtype := .uint8 }
  else a

/-- Decoded image object of the external codec collaborator (a PIL image):
pixel width and height, flat pixel data, and the originating file name
when one is known (`none` for `Image.fromarray` results). -/
structure PILImage where
  width : Nat
  height : Nat
  pixels : List ℚ
  filename : Option (List Nat)
deriving DecidableEq, Repr

/-- Image object `PIL.Image.fromarray(arr)` built from a validated array:
its size is `(W, H)` for shape `(H, W)` or `(H, W, C)`, and it carries no
file name. -/
def Image.fromarray (a : NpArray) : PILImage :=
  { width := a.shape.getD 1 0, height := a.shape.getD 0 0,
    pixels := a.elems, filename := none }

/-- Modelled from the spec: the external image-codec collaborator (PIL's
`image.save` into an in-memory buffer), which "encodes pixel grid → bytes
in a chosen container format".  Its exact output bytes are outside the
repository; any injective serialization of the pixel grid stands in. -/
def encodeImageBytes (img : PILImage) : List Nat :=
  (natDecimal img.width ++ ';' :: natDecimal img.height).map Char.toNat ++
  img.pixels.map fun q => (⌊q⌋ : ℤ).toNat % 256

/-- Constructor `ImageEsc.from_pil`: encodes the image through the codec
collaborator, takes the name from the image's originating file name when
present, and sets width/height to half the pixel dimensions in `Pixels`
units (`w / 2` is Python float division, exact on these values). -/
def ImageEsc.from_pil (img : PILImage) : ImageEsc :=
  { data := encodeImageBytes img,
    name := img.filename,
    width := ⟨(img.width : ℚ) / 2, .pixels⟩,
    height := ⟨(img.height : ℚ) / 2, .pixels⟩,
    preserveAspect := true }

/-- Constructor `ImageEsc.from_numpy`, statement by statement from the
source: rank must be 2 or 3; every dimension nonzero (`all(arr.shape)`);
for rank 3, a single channel is squeezed away and more than 4 channels is
an error; a floating array is converted elementwise to uint8; the dtype
must then be uint8; on success the array goes through
`Image.fromarray` and `from_pil`.  (The `sys.modules` probe for numpy is
an import-environment concern outside the data model.) -/
def ImageEsc.from_numpy (arr : NpArray) : Except PyError ImageEsc :=
  if ¬(arr.ndim = 2 ∨ arr.ndim = 3) then .error (.valueError rankMsg)
  else if ¬(arr.shape.all fun d => d != 0) then .error (.valueError zeroMsg)
  else
    match (if arr.ndim = 3 then
             if arr.shape.getLastD 0 = 1 then Except.ok arr.squeezeLast
             else if 4 < arr.shape.getLastD 0 then
               Except.error (PyError.valueError chanMsg)
             else Except.ok arr
           else Except.ok arr : Except PyError NpArray) with
  | .error e => .error e
  | .ok arr1 =>
    let arr2 := floatConvert arr1
    if ¬(arr2.dtype = .uint8) then .error (.valueError dtypeMsg)
    else .ok (ImageEsc.from_pil (Image.fromarray arr2))

/-- Strip a known leading character sequence. -/
def dropHead : List Char → List Char → Option (List Char)
  | [], s => some s
  | p :: ps, c :: cs => if p = c then dropHead ps cs else none
  | _ :: _, [] => none

/-- Split at the first occurrence of a separator character, returning the
parts before and after it. -/
def splitFirst (sep : Char) : List Char → Option (List Char × List Char)
  | [] => none
  | c :: cs =>
    if c = sep then some ([], cs)
    else
      match splitFirst sep cs with
      | some (l, r) => some (c :: l, r)
      | none => none

/-- Strip a known two-character terminator from the end of a sequence. -/
def stripTwoEnd (x y : Char) (l : List Char) : Option (List Char) :=
  match l.reverse with
  | b :: a :: rest =>
    if a = x then if b = y then some rest.reverse else none else none
  | _ => none

/-- Split at every occurrence of a separator character. -/
def splitAll (sep : Char) : List Char → List (List Char)
  | [] => [[]]
  | c :: cs =>
    let r := splitAll sep cs
    if c = sep then [] :: r
    else
      match r with
      | h :: t => (c :: h) :: t
      | [] => [[c]]

/-- Split each `key=value` argument entry at its first `=`. -/
def parseEntries : List (List Char) → Option (List (List Char × List Char))
  | [] => some []
  | e :: es =>
    match splitFirst '=' e, parseEntries es with
    | some kv, some rest => some (kv :: rest)
    | _, _ => none

/-- Modelled from the spec: `decode_wire` "reverses the framing and base64
step" — strip the `ESC]1337;File=` start marker, split the remainder at
the `:` separator, strip the `BEL`-newline terminator, base64-decode the
payload, split the argument string at `;` into `key=value` entries
(splitting each at its first `=`), and base64-decode the value of the
`name` entry when one is present. -/
def decodeWire (s : List Char) :
    Option (List Nat × Option (List Nat)) :=
  match dropHead headerChars s with
  | none => none
  | some r1 =>
    match splitFirst ':' r1 with
    | none => none
    | some (argStr, r2) =>
      match stripTwoEnd belChar '\n' r2 with
      | none => none
      | some payload =>
        match b64decode payload with
        | none => none
        | some d =>
          match parseEntries (splitAll ';' argStr) with
          | none => none
          | some kvs =>
            match kvs.find? fun kv => kv.1 == nameKey with
            | none => some (d, none)
            | some kv =>
              match b64decode kv.2 with
              | none => none
              | some nm => some (d, some nm)

/-- C8: for every Image Payload and every scale factor strictly less than
zero, scaling — in place (`__imul__`) or via the copying variants
(`__mul__`, `__rmul__`) that delegate to it — fails with the
`ValueError` of the negativity check, the DomainError kind of the spec's
taxonomy. -/
theorem c8_negative_scale_error (e : ImageEsc) (k : ℚ) (hk : k < 0) :
    (e.imulRun k).1 = .error (.valueError negMsg) ∧
    (e.mulRun k).1 = .error (.valueError negMsg) ∧
    (e.rmulRun k).1 = .error (.valueError negMsg) ∧
    (PyError.valueError negMsg).isDomainError = true := by
  refine ⟨?_, ?_, ?_, by decide⟩ <;>
    simp [ImageEsc.imulRun, ImageEsc.mulRun, ImageEsc.rmulRun,
          ImageEsc.copy, if_pos hk]

/-- Witness for C8 at the concrete factor `-3`. -/
theorem c8_negative_scale_error_witness :
    (-3 : ℚ) < 0 ∧
    ((defaultImageEsc.imulRun (-3)).1 = .error (.valueError negMsg) ∧
     (defaultImageEsc.mulRun (-3)).1 = .error (.valueError negMsg) ∧
     (defaultImageEsc.rmulRun (-3)).1 = .error (.valueError negMsg) ∧
     (PyError.valueError negMsg).isDomainError = true) :=
  ⟨by norm_num, c8_negative_scale_error defaultImageEsc (-3) (by norm_num)⟩

/-- C9: for every payload `p` and nonnegative factor `k`, the copying
`__mul__` returns a payload whose width and height values are `p`'s
multiplied by `k` with units unchanged and the same data, while `p`'s own
state after the call is exactly its state before it. -/
theorem c9_scaled_by_pure (e : ImageEsc) (k : ℚ) (hk : 0 ≤ k) :
    ∃ r, e.mulRun k = (.ok r, e) ∧
      r.width.value = e.width.value * k ∧ r.width.unit = e.width.unit ∧
      r.height.value = e.height.value * k ∧ r.height.unit = e.height.unit ∧
      r.data = e.data := by
  classical
  set r : ImageEsc :=
    { e with
      width := ⟨e.width.value * k, e.width.unit⟩
      height := ⟨e.height.value * k, e.height.unit⟩ } with hr
  refine ⟨r, ?_, rfl, rfl, rfl, rfl, rfl⟩
  simp [ImageEsc.mulRun, ImageEsc.copy, ImageEsc.imulRun,
        if_neg (not_lt.mpr hk), hr]

/-- Witness for C9 at the factor `3` on a payload with pixel units. -/
theorem c9_scaled_by_pure_witness :
    (0 : ℚ) ≤ 3 ∧
    ∃ r, ImageEsc.mulRun
        { data := [1, 2], name := none, width := ⟨4, .pixels⟩,
          height := ⟨6, .pixels⟩, preserveAspect := true } 3 =
      (.ok r,
       { data := [1, 2], name := none, width := ⟨4, .pixels⟩,
         height := ⟨6, .pixels⟩, preserveAspect := true }) ∧
      r.width.value = (4 : ℚ) * 3 ∧ r.width.unit = .pixels ∧
      r.height.value = (6 : ℚ) * 3 ∧ r.height.unit = .pixels ∧
      r.data = [1, 2] :=
  ⟨by norm_num, c9_scaled_by_pure _ 3 (by norm_num)⟩

/-- C10: when in-place scaling fails on a negative factor, the negativity
check precedes any mutation, so the call raises the DomainError and the
post-state of the payload equals its pre-state (width and height keep
their prior values). -/
theorem c10_imul_error_frame (e : ImageEsc) (k : ℚ) (hk : k < 0) :
    e.imulRun k = (.error (.valueError negMsg), e) := by
  simp [ImageEsc.imulRun, if_pos hk]

/-- Witness for C10 at the concrete factor `-2`. -/
theorem c10_imul_error_frame_witness :
    (-2 : ℚ) < 0 ∧
    ImageEsc.imulRun
        { data := [9], name := none, width := ⟨5, .cells⟩,
          height := ⟨7, .percent⟩, preserveAspect := false } (-2) =
      (.error (.valueError negMsg),
       { data := [9], name := none, width := ⟨5, .cells⟩,
         height := ⟨7, .percent⟩, preserveAspect := false }) :=
  ⟨by norm_num, c10_imul_error_frame _ (-2) (by norm_num)⟩

/-- C5 counterexample: dividing a payload by zero does not propagate an
infinity or NaN value into a returned payload — both the copying and the
in-place division raise `ZeroDivisionError`, Python's dedicated
division-by-zero error, at the concrete divisor `0`. -/
theorem c5_div_zero_counterexample :
    (defaultImageEsc.truedivRun 0).1 = .error .zeroDivisionError ∧
    (defaultImageEsc.itruedivRun 0).1 = .error .zeroDivisionError := by
  constructor <;> rfl

/-- C5 as amended: division is not special-cased by the payload code —
it delegates to multiplication by the reciprocal `1 / other` — but a zero
divisor makes the platform's division raise `ZeroDivisionError` before
any scaling happens, leaving the payload unchanged; for a nonzero divisor
in-place division coincides with in-place multiplication by the
reciprocal. -/
theorem c5_div_zero_raises (e : ImageEsc) (k : ℚ) :
    (k = 0 →
      e.itruedivRun k = (.error .zeroDivisionError, e) ∧
      e.truedivRun k = (.error .zeroDivisionError, e)) ∧
    (k ≠ 0 → e.itruedivRun k = e.imulRun (1 / k)) := by
  constructor
  · rintro rfl
    constructor <;>
      simp [ImageEsc.itruedivRun, ImageEsc.truedivRun, ImageEsc.copy,
            pyRecip]
  · intro hk
    simp [ImageEsc.itruedivRun, pyRecip, hk]

/-- Witness for C5 at the divisors `0` and `2`. -/
theorem c5_div_zero_raises_witness :
    (defaultImageEsc.itruedivRun 0 =
       (.error .zeroDivisionError, defaultImageEsc) ∧
     defaultImageEsc.truedivRun 0 =
       (.error .zeroDivisionError, defaultImageEsc)) ∧
    defaultImageEsc.itruedivRun 2 = defaultImageEsc.imulRun (1 / 2) :=
  ⟨(c5_div_zero_raises defaultImageEsc 0).1 rfl,
   (c5_div_zero_raises defaultImageEsc 2).2 (by norm_num)⟩

/-- C1: `FileEsc.write` performs three writes followed by exactly one
flush, and the bytes written form the single sequence
`ESC ]1337;File=<args>:<base64(data)> BEL newline`, where the arguments
are `;`-joined unescaped `key=value` pairs: `name` (base64 of the name)
only when the name is set, then `size` (decimal byte length of the raw
data). -/
theorem c1_file_write_wire (d : List Nat) (n : Option (List Nat)) :
    ∃ s1 s2 s3,
      (FileEsc.mk d n).writeOps = [.write s1, .write s2, .write s3, .flush] ∧
      s1 ++ s2 ++ s3 = specFileWire d n := by
  refine ⟨_, _, _, rfl, ?_⟩
  cases n <;>
    simp [FileEsc.writeOps, writeArgsOps, fileArgs, fmtArgs, joinArgs,
          specFileWire, headerChars, sizeKey, nameKey, belChar,
          List.append_assoc]

/-- C2: `ImageEsc.write` emits one sequence whose arguments are, in
order, `name` (only when set), `size`, `width`, `height`,
`preserveAspectRatio` rendered `0` or `1`, and the literal `inline=1`,
with width/height the dimensions' rendered text; a default-constructed
`ImageEsc` written to a stream emits exactly
`ESC]1337;File=size=0;width=auto;height=auto;preserveAspectRatio=1;inline=1:`
followed by BEL and newline. -/
theorem c2_image_write_wire :
    (∀ e : ImageEsc, ∃ s1 s2 s3,
      e.writeOps = [.write s1, .write s2, .write s3, .flush] ∧
      s1 ++ s2 ++ s3 = specImageWire e) ∧
    emitted defaultImageEsc.writeOps =
      ("\x1b]1337;File=size=0;width=auto;height=auto;preserveAspectRatio=1;inline=1:\x07\n" : String).data := by
  constructor
  · intro e
    refine ⟨_, _, _, rfl, ?_⟩
    rcases e with ⟨⟨dd, nn⟩, w, h, p⟩
    cases nn <;>
      simp [ImageEsc.writeOps, writeArgsOps, imageArgs, fmtArgs, joinArgs,
            specImageWire, headerChars, sizeKey, nameKey, belChar,
            List.append_assoc]
  · decide

/-- Banker's rounding lands within half a unit of its argument. -/
theorem np_round_nearest (q : ℚ) : |((np_round q : ℤ) : ℚ) - q| ≤ 1 / 2 := by
  have hf1 : ((⌊q⌋ : ℤ) : ℚ) ≤ q := Int.floor_le q
  have hf2 : q < (⌊q⌋ : ℤ) + 1 := Int.lt_floor_add_one q
  unfold np_round
  split_ifs with h1 h2 h3 <;> rw [abs_le] <;> push_cast <;>
    constructor <;> linarith

/-- Banker's rounding of a value in `[0, 255]` stays in `0..255`. -/
theorem np_round_bounds {q : ℚ} (h0 : 0 ≤ q) (h1 : q ≤ 255) :
    0 ≤ np_round q ∧ np_round q ≤ 255 := by
  have hf0 : 0 ≤ ⌊q⌋ := Int.le_floor.mpr (by exact_mod_cast h0)
  have hf255 : ⌊q⌋ ≤ 255 := by
    have hc : ((⌊q⌋ : ℤ) : ℚ) ≤ 255 := le_trans (Int.floor_le q) h1
    exact_mod_cast hc
  have hup : 1 / 2 ≤ q - ((⌊q⌋ : ℤ) : ℚ) → ⌊q⌋ + 1 ≤ 255 := by
    intro hgt
    by_contra hcon
    have he : ⌊q⌋ = 255 := by omega
    rw [he] at hgt
    push_cast at hgt
    linarith
  unfold np_round
  split_ifs with ha hb hc
  · exact ⟨hf0, hf255⟩
  · exact ⟨by omega, hup (by linarith)⟩
  · exact ⟨hf0, hf255⟩
  · exact ⟨by omega, hup (by linarith)⟩

/-- Clamped values lie in the unit interval. -/
theorem clip01_mem (v : ℚ) : 0 ≤ clip01 v ∧ clip01 v ≤ 1 :=
  ⟨le_max_left 0 _, max_le (by norm_num) (min_le_left 1 v)⟩

/-- C4: `from_numpy` checks its preconditions in order with distinct
failure modes — wrong rank fails with the rank `ValueError`; a zero
dimension (under a valid rank) fails with the zero-dimension
`ValueError`; a rank-3 array with more than 4 channels fails with the
channel `ValueError`; a rank-3 array with exactly 1 channel is squeezed
to rank 2 and processed exactly as that 2-dimensional array; after the
float-conversion step a non-uint8 element type fails with the dtype
`ValueError`; the first three messages are the ShapeError kind and the
last the DTypeError kind of the spec's taxonomy. -/
theorem c4_from_numpy_validation :
    (∀ arr : NpArray, ¬(arr.ndim = 2 ∨ arr.ndim = 3) →
      ImageEsc.from_numpy arr = .error (.valueError rankMsg)) ∧
    (∀ arr : NpArray, (arr.ndim = 2 ∨ arr.ndim = 3) → 0 ∈ arr.shape →
      ImageEsc.from_numpy arr = .error (.valueError zeroMsg)) ∧
    (∀ arr : NpArray, arr.ndim = 3 →
      (arr.shape.all fun d => d != 0) = true →
      4 < arr.shape.getLastD 0 →
      ImageEsc.from_numpy arr = .error (.valueError chanMsg)) ∧
    (∀ arr : NpArray, arr.ndim = 3 →
      (arr.shape.all fun d => d != 0) = true →
      arr.shape.getLastD 0 = 1 →
      ImageEsc.from_numpy arr = ImageEsc.from_numpy arr.squeezeLast ∧
      arr.squeezeLast.ndim = 2) ∧
    (∀ arr : NpArray, (arr.ndim = 2 ∨ arr.ndim = 3) →
      (arr.shape.all fun d => d != 0) = true →
      (arr.ndim = 3 → arr.shape.getLastD 0 ≤ 4) →
      arr.dtype = .other →
      ImageEsc.from_numpy arr = .error (.valueError dtypeMsg)) ∧
    ((PyError.valueError rankMsg).isShapeError = true ∧
     (PyError.valueError zeroMsg).isShapeError = true ∧
     (PyError.valueError chanMsg).isShapeError = true ∧
     (PyError.valueError dtypeMsg).isDTypeError = true ∧
     (PyError.valueError dtypeMsg).isShapeError = false) := by
  refine ⟨?_, ?_, ?_, ?_, ?_, by decide⟩
  · intro arr h
    simp [ImageEsc.from_numpy, h]
  · intro arr hrank hmem
    have hall : (arr.shape.all fun d => d != 0) = false := by
      rw [List.all_eq_false]
      exact ⟨0, hmem, by simp⟩
    rcases hrank with h | h <;> simp [ImageEsc.from_numpy, h, hall]
  · intro arr h3 hall hgt
    have hgt' : 4 < arr.shape.getLast?.getD 0 := by
      rw [← List.getLastD_eq_getLast?]
      exact hgt
    have hne' : arr.shape.getLast?.getD 0 ≠ 1 := by omega
    simp [ImageEsc.from_numpy, h3, hall, hne', hgt']
  · intro arr h3 hall h1
    have hlen : arr.shape.length = 3 := h3
    have h2 : arr.squeezeLast.ndim = 2 := by
      simp [NpArray.squeezeLast, NpArray.ndim, hlen]
    have hall2 : (arr.squeezeLast.shape.all fun d => d != 0) = true := by
      rw [List.all_eq_true] at hall ⊢
      intro x hx
      exact hall x (List.dropLast_subset _ hx)
    have h1' : arr.shape.getLast?.getD 0 = 1 := by
      rw [← List.getLastD_eq_getLast?]
      exact h1
    refine ⟨?_, h2⟩
    simp [ImageEsc.from_numpy, h3, hall, h1', h2, hall2]
  · intro arr hrank hall hch hdt
    rcases hrank with h2 | h3
    · simp [ImageEsc.from_numpy, h2, hall, floatConvert, hdt]
    · by_cases h1 : arr.shape.getLast?.getD 0 = 1
      · simp [ImageEsc.from_numpy, h3, hall, h1, floatConvert,
              NpArray.squeezeLast, hdt]
      · have hle : ¬(4 < arr.shape.getLast?.getD 0) := by
          have hc := hch h3
          rw [List.getLastD_eq_getLast?] at hc
          omega
        simp [ImageEsc.from_numpy, h3, hall, h1, hle, floatConvert, hdt]

/-- Witness for C4: a rank-1 array, a zero-dimension array, a 5-channel
array, a single-channel rank-3 array, and a rank-2 array of a foreign
dtype each hit their own check. -/
theorem c4_from_numpy_validation_witness :
    ImageEsc.from_numpy ⟨[5], .uint8, [0, 0, 0, 0, 0]⟩ =
      .error (.valueError rankMsg) ∧
    ImageEsc.from_numpy ⟨[0, 3], .uint8, []⟩ =
      .error (.valueError zeroMsg) ∧
    ImageEsc.from_numpy ⟨[1, 1, 5], .uint8, [0, 0, 0, 0, 0]⟩ =
      .error (.valueError chanMsg) ∧
    (ImageEsc.from_numpy ⟨[1, 1, 1], .uint8, [0]⟩ =
       ImageEsc.from_numpy (NpArray.squeezeLast ⟨[1, 1, 1], .uint8, [0]⟩) ∧
     (NpArray.squeezeLast ⟨[1, 1, 1], .uint8, [0]⟩).ndim = 2) ∧
    ImageEsc.from_numpy ⟨[2, 2], .other, [0, 0, 0, 0]⟩ =
      .error (.valueError dtypeMsg) :=
  ⟨c4_from_numpy_validation.1 _ (by decide),
   c4_from_numpy_validation.2.1 _ (by decide) (by decide),
   c4_from_numpy_validation.2.2.1 _ (by decide) (by decide) (by decide),
   c4_from_numpy_validation.2.2.2.1 _ (by decide) (by decide) (by decide),
   c4_from_numpy_validation.2.2.2.2.1 _ (by decide) (by decide)
     (by decide) (by decide)⟩

/-- C6: a 2-dimensional uint8 array of shape `(H, W)` with both
dimensions nonzero is accepted by `from_numpy`, and the resulting payload
has width `W / 2` and height `H / 2`, both in `Pixels` units. -/
theorem c6_from_numpy_2d_dims (H W : Nat) (elems : List ℚ)
    (hH : H ≠ 0) (hW : W ≠ 0) :
    ∃ e, ImageEsc.from_numpy ⟨[H, W], .uint8, elems⟩ = .ok e ∧
      e.width.value = (W : ℚ) / 2 ∧ e.width.unit = .pixels ∧
      e.height.value = (H : ℚ) / 2 ∧ e.height.unit = .pixels := by
  have hall : (([H, W] : List Nat).all fun d => d != 0) = true := by
    simp [hH, hW]
  refine ⟨ImageEsc.from_pil (Image.fromarray ⟨[H, W], .uint8, elems⟩),
          ?_, rfl, rfl, rfl, rfl⟩
  simp [ImageEsc.from_numpy, NpArray.ndim, hall, floatConvert]

/-- Witness for C6 on a 2-by-3 array of zeros. -/
theorem c6_from_numpy_2d_dims_witness :
    (2 : Nat) ≠ 0 ∧ (3 : Nat) ≠ 0 ∧
    ∃ e, ImageEsc.from_numpy ⟨[2, 3], .uint8, [0, 0, 0, 0, 0, 0]⟩ =
        .ok e ∧
      e.width.value = (3 : ℚ) / 2 ∧ e.width.unit = .pixels ∧
      e.height.value = (2 : ℚ) / 2 ∧ e.height.unit = .pixels :=
  ⟨by decide, by decide,
   c6_from_numpy_2d_dims 2 3 [0, 0, 0, 0, 0, 0] (by decide) (by decide)⟩

/-- C7: when the element type is floating, `from_numpy` behaves exactly
as if every element had first been clamped to `[0, 1]`, scaled by 255 and
rounded (`floatToByte`) into a uint8 array; the converted value is an
integer in `0..255` within half a unit of the clamped, scaled value
(rounding to nearest); and the element `1/2` converts to `128`. -/
theorem c7_float_conversion :
    (∀ arr : NpArray, arr.ndim = 2 →
      (arr.shape.all fun d => d != 0) = true →
      arr.dtype = .floating →
      ImageEsc.from_numpy arr =
        ImageEsc.from_numpy ⟨arr.shape, .uint8, arr.elems.map floatToByte⟩) ∧
    (∀ v : ℚ, ∃ z : ℤ, floatToByte v = (z : ℚ) ∧ 0 ≤ z ∧ z ≤ 255 ∧
      |(z : ℚ) - clip01 v * 255| ≤ 1 / 2) ∧
    floatToByte (1 / 2) = 128 := by
  refine ⟨?_, ?_, ?_⟩
  · intro arr h2 hall hf
    obtain ⟨sh, dt, el⟩ := arr
    cases hf
    have hlen : sh.length = 2 := h2
    simp [ImageEsc.from_numpy, NpArray.ndim, hlen, hall, floatConvert] at *
  · intro v
    obtain ⟨hc0, hc1⟩ := clip01_mem v
    have h0 : (0 : ℚ) ≤ clip01 v * 255 := by linarith
    have h255 : clip01 v * 255 ≤ 255 := by linarith
    obtain ⟨hz0, hz255⟩ := np_round_bounds h0 h255
    exact ⟨np_round (clip01 v * 255), rfl, hz0, hz255,
           np_round_nearest _⟩
  · have hc : clip01 (1 / 2 : ℚ) = 1 / 2 := by
      unfold clip01
      rw [min_eq_right (by norm_num), max_eq_right (by norm_num)]
    have hfl : ⌊(1 / 2 : ℚ) * 255⌋ = 127 := by
      rw [Int.floor_eq_iff]
      norm_num
    unfold floatToByte np_round
    rw [hc, hfl]
    norm_num

/-- Witness for C7: a 1-by-1 float array holding `1/2` ingests as the
same array pre-converted, and the conversion facts at `v = 1/2`. -/
theorem c7_float_conversion_witness :
    ImageEsc.from_numpy ⟨[1, 1], .floating, [1 / 2]⟩ =
      ImageEsc.from_numpy
        ⟨[1, 1], .uint8, List.map floatToByte [1 / 2]⟩ ∧
    (∃ z : ℤ, floatToByte (1 / 2) = (z : ℚ) ∧ 0 ≤ z ∧ z ≤ 255 ∧
      |(z : ℚ) - clip01 (1 / 2) * 255| ≤ 1 / 2) ∧
    floatToByte (1 / 2) = 128 :=
  ⟨c7_float_conversion.1 ⟨[1, 1], .floating, [1 / 2]⟩ (by decide)
     (by decide) (by decide),
   c7_float_conversion.2.1 (1 / 2),
   c7_float_conversion.2.2⟩

/-- Stripping a literal head from itself followed by anything succeeds. -/
theorem dropHead_append (p s : List Char) : dropHead p (p ++ s) = some s := by
  induction p with
  | nil => rfl
  | cons c cs ih => simp [dropHead, ih]

/-- Splitting at the first separator finds the separator we appended,
provided the part before it is separator-free. -/
theorem splitFirst_append {sep : Char} {xs : List Char} (h : sep ∉ xs)
    (ys : List Char) : splitFirst sep (xs ++ sep :: ys) = some (xs, ys) := by
  induction xs with
  | nil => simp [splitFirst]
  | cons c cs ih =>
    have hc : ¬c = sep := fun he => h (he ▸ List.mem_cons_self c cs)
    have hcs : sep ∉ cs := fun hm => h (List.mem_cons_of_mem c hm)
    simp [splitFirst, hc, ih hcs]

/-- Stripping a two-character terminator we appended succeeds. -/
theorem stripTwoEnd_append (x y : Char) (body : List Char) :
    stripTwoEnd x y (body ++ [x, y]) = some body := by
  simp [stripTwoEnd, List.reverse_append]

/-- A separator-free sequence splits into the single piece itself. -/
theorem splitAll_no_sep {sep : Char} {xs : List Char} (h : sep ∉ xs) :
    splitAll sep xs = [xs] := by
  induction xs with
  | nil => rfl
  | cons c cs ih =>
    have hc : ¬c = sep := fun he => h (he ▸ List.mem_cons_self c cs)
    have hcs : sep ∉ cs := fun hm => h (List.mem_cons_of_mem c hm)
    simp [splitAll, hc, ih hcs]

/-- Splitting around an appended separator yields the separator-free part
followed by the split of the remainder. -/
theorem splitAll_append {sep : Char} {xs : List Char} (h : sep ∉ xs)
    (ys : List Char) :
    splitAll sep (xs ++ sep :: ys) = xs :: splitAll sep ys := by
  induction xs with
  | nil => simp [splitAll]
  | cons c cs ih =>
    have hc : ¬c = sep := fun he => h (he ▸ List.mem_cons_self c cs)
    have hcs : sep ∉ cs := fun hm => h (List.mem_cons_of_mem c hm)
    rw [List.cons_append, splitAll]
    simp only [hc, if_false, ih hcs]

/-- Decoding an alphabet character recovers its 6-bit value. -/
theorem b64val_b64chr {v : Nat} (h : v < 64) : b64val (b64chr v) = some v := by
  have hall : ∀ w : Fin 64, b64val (b64chr w.val) = some w.val := by decide
  exact hall ⟨v, h⟩

/-- Alphabet characters are never the padding character. -/
theorem b64chr_ne_pad {v : Nat} (h : v < 64) : b64chr v ≠ '=' := by
  have hall : ∀ w : Fin 64, b64chr w.val ≠ '=' := by decide
  exact hall ⟨v, h⟩

/-- Every character of a base64 encoding is an alphabet character or the
padding character. -/
theorem mem_b64encode (l : List Nat) :
    ∀ c ∈ b64encode l, c ∈ b64Alphabet ∨ c = '=' := by
  have hchr : ∀ v : Nat, b64chr v ∈ b64Alphabet ∨ b64chr v = '=' := by
    intro v
    by_cases hv : v < 64
    · left
      have hall : ∀ w : Fin 64, b64chr w.val ∈ b64Alphabet := by decide
      exact hall ⟨v, hv⟩
    · right
      have hlen : b64Alphabet.length ≤ v := by
        have : b64Alphabet.length = 64 := by decide
        omega
      exact List.getD_eq_default _ _ hlen
  induction l using b64encode.induct with
  | case1 a b c rest ih =>
    intro x hx
    simp only [b64encode, List.mem_cons] at hx
    rcases hx with rfl | rfl | rfl | rfl | h
    · exact hchr _
    · exact hchr _
    · exact hchr _
    · exact hchr _
    · exact ih x h
  | case2 a b =>
    intro x hx
    simp only [b64encode, List.mem_cons, List.not_mem_nil, or_false] at hx
    rcases hx with rfl | rfl | rfl | rfl
    · exact hchr _
    · exact hchr _
    · exact hchr _
    · exact Or.inr rfl
  | case3 a =>
    intro x hx
    simp only [b64encode, List.mem_cons, List.not_mem_nil, or_false] at hx
    rcases hx with rfl | rfl | rfl | rfl
    · exact hchr _
    · exact hchr _
    · exact Or.inr rfl
    · exact Or.inr rfl
  | case4 =>
    intro x hx
    simp only [b64encode, List.not_mem_nil] at hx

/-- The colon separator never occurs in a base64 encoding. -/
theorem colon_not_mem_b64encode (l : List Nat) : ':' ∉ b64encode l := by
  intro h
  rcases mem_b64encode l ':' h with h1 | h1
  · exact absurd h1 (by decide)
  · exact absurd h1 (by decide)

/-- The argument separator never occurs in a base64 encoding. -/
theorem semi_not_mem_b64encode (l : List Nat) : ';' ∉ b64encode l := by
  intro h
  rcases mem_b64encode l ';' h with h1 | h1
  · exact absurd h1 (by decide)
  · exact absurd h1 (by decide)

/-- Every character of a decimal rendering is a digit. -/
theorem mem_natDecimalAux (fuel n : Nat) :
    ∀ c ∈ natDecimalAux fuel n, ∃ k, k ≤ 9 ∧ c = digitChar k := by
  induction fuel generalizing n with
  | zero => intro c hc; cases hc
  | succ fuel ih =>
    intro c hc
    by_cases hn : n < 10
    · simp [natDecimalAux, hn] at hc
      exact ⟨n, by omega, hc⟩
    · simp [natDecimalAux, hn] at hc
      rcases hc with h | h
      · exact ih (n / 10) c h
      · exact ⟨n % 10, by omega, h⟩

/-- The colon separator is not a digit character. -/
theorem colon_not_mem_natDecimal (n : Nat) : ':' ∉ natDecimal n := by
  intro h
  obtain ⟨k, hk, he⟩ := mem_natDecimalAux (n + 1) n ':' h
  have hall : ∀ w : Fin 10, digitChar w.val ≠ ':' := by decide
  exact hall ⟨k, by omega⟩ he.symm

/-- The argument separator is not a digit character. -/
theorem semi_not_mem_natDecimal (n : Nat) : ';' ∉ natDecimal n := by
  intro h
  obtain ⟨k, hk, he⟩ := mem_natDecimalAux (n + 1) n ';' h
  have hall : ∀ w : Fin 10, digitChar w.val ≠ ';' := by decide
  exact hall ⟨k, by omega⟩ he.symm

/-- Standard base64 decoding inverts the encoding on byte sequences. -/
theorem b64decode_b64encode {l : List Nat} :
    (∀ x ∈ l, x < 256) → b64decode (b64encode l) = some l := by
  induction l using b64encode.induct with
  | case1 a b c rest ih =>
    intro h
    have ha : a < 256 := h a (by simp)
    have hb : b < 256 := h b (by simp)
    have hc : c < 256 := h c (by simp)
    have hrest : ∀ x ∈ rest, x < 256 := fun x hx => h x (by simp [hx])
    have h1 : a / 4 < 64 := by omega
    have h2 : a % 4 * 16 + b / 16 < 64 := by omega
    have h3 : b % 16 * 4 + c / 64 < 64 := by omega
    have h4 : c % 64 < 64 := by omega
    simp [b64encode, b64decode, b64val_b64chr h1, b64val_b64chr h2,
          b64val_b64chr h3, b64val_b64chr h4, b64chr_ne_pad h3,
          b64chr_ne_pad h4, ih hrest]
    omega
  | case2 a b =>
    intro h
    have ha : a < 256 := h a (by simp)
    have hb : b < 256 := h b (by simp)
    have h1 : a / 4 < 64 := by omega
    have h2 : a % 4 * 16 + b / 16 < 64 := by omega
    have h3 : b % 16 * 4 < 64 := by omega
    simp [b64encode, b64decode, b64val_b64chr h1, b64val_b64chr h2,
          b64val_b64chr h3, b64chr_ne_pad h3]
    omega
  | case3 a =>
    intro h
    have ha : a < 256 := h a (by simp)
    have h1 : a / 4 < 64 := by omega
    have h2 : a % 4 * 16 < 64 := by omega
    simp [b64encode, b64decode, b64val_b64chr h1, b64val_b64chr h2]
    omega
  | case4 =>
    intro _
    rfl

/-- C3: decoding the bytes emitted by writing a payload — reversing the
fixed framing (start marker, `:` separator, BEL-newline terminator) and
the base64 encoding of both the payload and the `name` argument —
recovers exactly the original data and optional name. -/
theorem c3_wire_round_trip (d : List Nat) (n : Option (List Nat))
    (hd : ∀ x ∈ d, x < 256) (hn : ∀ nm ∈ n, ∀ x ∈ nm, x < 256) :
    decodeWire (emitted (FileEsc.mk d n).writeOps) = some (d, n) := by
  have hkey : ((sizeKey == nameKey) = false) := by decide
  cases n with
  | none =>
    have hemit : emitted (FileEsc.mk d none).writeOps =
        headerChars ++ ((sizeKey ++ '=' :: natDecimal d.length) ++
          ':' :: (b64encode d ++ [belChar, '\n'])) := by
      simp [FileEsc.writeOps, writeArgsOps, emitted, fileArgs, fmtArgs,
            joinArgs, List.append_assoc]
    have hcolon : ':' ∉ sizeKey ++ '=' :: natDecimal d.length := by
      intro hmem
      rcases List.mem_append.mp hmem with h | h
      · exact absurd h (by decide)
      · rcases List.mem_cons.mp h with h | h
        · exact absurd h (by decide)
        · exact colon_not_mem_natDecimal _ h
    have hsemi : ';' ∉ sizeKey ++ '=' :: natDecimal d.length := by
      intro hmem
      rcases List.mem_append.mp hmem with h | h
      · exact absurd h (by decide)
      · rcases List.mem_cons.mp h with h | h
        · exact absurd h (by decide)
        · exact semi_not_mem_natDecimal _ h
    have heqk : '=' ∉ sizeKey := by decide
    rw [hemit]
    have hsplit := splitFirst_append hcolon (b64encode d ++ [belChar, '\n'])
    simp only [List.append_assoc, List.cons_append] at hsplit
    have hsf2 := splitFirst_append heqk (natDecimal d.length)
    simp [decodeWire, dropHead_append, hsplit, stripTwoEnd_append,
          b64decode_b64encode hd, splitAll_no_sep hsemi, parseEntries,
          hsf2, List.find?, hkey]
  | some nm =>
    have hnm : ∀ x ∈ nm, x < 256 := hn nm rfl
    have hemit : emitted (FileEsc.mk d (some nm)).writeOps =
        headerChars ++
          (((nameKey ++ '=' :: b64encode nm) ++
            ';' :: (sizeKey ++ '=' :: natDecimal d.length)) ++
          ':' :: (b64encode d ++ [belChar, '\n'])) := by
      simp [FileEsc.writeOps, writeArgsOps, emitted, fileArgs, fmtArgs,
            joinArgs, List.append_assoc]
    have hcolon : ':' ∉ (nameKey ++ '=' :: b64encode nm) ++
        ';' :: (sizeKey ++ '=' :: natDecimal d.length) := by
      intro hmem
      rcases List.mem_append.mp hmem with h | h
      · rcases List.mem_append.mp h with h | h
        · exact absurd h (by decide)
        · rcases List.mem_cons.mp h with h | h
          · exact absurd h (by decide)
          · exact colon_not_mem_b64encode _ h
      · rcases List.mem_cons.mp h with h | h
        · exact absurd h (by decide)
        · rcases List.mem_append.mp h with h | h
          · exact absurd h (by decide)
          · rcases List.mem_cons.mp h with h | h
            · exact absurd h (by decide)
            · exact colon_not_mem_natDecimal _ h
    have hsemi1 : ';' ∉ nameKey ++ '=' :: b64encode nm := by
      intro hmem
      rcases List.mem_append.mp hmem with h | h
      · exact absurd h (by decide)
      · rcases List.mem_cons.mp h with h | h
        · exact absurd h (by decide)
        · exact semi_not_mem_b64encode _ h
    have hsemi2 : ';' ∉ sizeKey ++ '=' :: natDecimal d.length := by
      intro hmem
      rcases List.mem_append.mp hmem with h | h
      · exact absurd h (by decide)
      · rcases List.mem_cons.mp h with h | h
        · exact absurd h (by decide)
        · exact semi_not_mem_natDecimal _ h
    have heqn : '=' ∉ nameKey := by decide
    have heqk : '=' ∉ sizeKey := by decide
    rw [hemit]
    have hsplit := splitFirst_append hcolon (b64encode d ++ [belChar, '\n'])
    simp only [List.append_assoc, List.cons_append] at hsplit
    have hsa := splitAll_append hsemi1 (sizeKey ++ '=' :: natDecimal d.length)
    simp only [List.append_assoc, List.cons_append] at hsa
    have hsa2 := splitAll_no_sep hsemi2
    have hsf1 := splitFirst_append heqn (b64encode nm)
    have hsf2 := splitFirst_append heqk (natDecimal d.length)
    simp [decodeWire, dropHead_append, hsplit, stripTwoEnd_append,
          b64decode_b64encode hd, b64decode_b64encode hnm, hsa, hsa2,
          parseEntries, hsf1, hsf2, List.find?]

/-- Witness for C3: a three-byte payload carrying bytes that exercise
base64 padding and a two-byte name round-trips. -/
theorem c3_wire_round_trip_witness :
    (∀ x ∈ [0, 255, 7, 8], x < 256) ∧
    decodeWire (emitted (FileEsc.mk [0, 255, 7, 8]
        (some [104, 105])).writeOps) =
      some ([0, 255, 7, 8], some [104, 105]) :=
  ⟨by decide,
   c3_wire_round_trip [0, 255, 7, 8] (some [104, 105]) (by decide)
     (by decide)⟩
